import Mathlib

/-!
# Verification of `convert_ing_to_quicken.py`

A shallow embedding of the ING-to-Quicken CSV converter
(`src/convert_ing_to_quicken.py`) together with proofs about its
specification.  Python strings are modelled as Lean `String`s (lists of
characters), Python `float` amounts as exact decimals (`PyDec`, an integer
over a power of ten, with a rational valuation used in statements), and
fallible code as `Except`/`Option`.  Every definition is executable.
-/

set_option maxRecDepth 4000

/-! ## Models of Python string primitives -/

/-- The characters Python `str.strip()` / `str.split()` treat as whitespace
(restricted to ASCII, which is all that can occur after normalization). -/
def pspace (c : Char) : Bool :=
  c = ' ' || c = '\t' || c = '\n' || c = '\r' || c = '\x0b' || c = '\x0c'

/-- `str.strip()` on a character list: drop leading and trailing whitespace. -/
def pstripL (cs : List Char) : List Char :=
  ((cs.dropWhile pspace).reverse.dropWhile pspace).reverse

/-- Model of Python `str.strip()`. -/
def pstrip (s : String) : String :=
  ⟨pstripL s.data⟩

/-- `str.split(sep)` for a one-character separator, accumulator version.
Matches Python: no collapsing of empty fields, `"".split(";") == [""]`. -/
def psplitAux (sep : Char) : List Char → List Char → List (List Char)
  | [], acc => [acc.reverse]
  | c :: cs, acc =>
    if c = sep then acc.reverse :: psplitAux sep cs []
    else psplitAux sep cs (c :: acc)

/-- Model of Python `str.split(sep)` for a one-character separator. -/
def psplit (sep : Char) (s : String) : List String :=
  (psplitAux sep s.data []).map (fun cs => ⟨cs⟩)

/-- Model of Python `str.lower()` (ASCII letters; all uses here are ASCII). -/
def plower (s : String) : String :=
  ⟨s.data.map Char.toLower⟩

/-- Model of Python `str.startswith(pre)`. -/
def pstartswith (pre s : String) : Bool :=
  pre.data.isPrefixOf s.data

/-- Substring containment on character lists (Python `needle in hay`). -/
def isSubstr (needle : List Char) : List Char → Bool
  | [] => needle.isPrefixOf []
  | c :: cs => needle.isPrefixOf (c :: cs) || isSubstr needle cs

/-- Model of Python `str.rstrip(",")`: remove all trailing commas. -/
def prstripComma (s : String) : String :=
  ⟨(s.data.reverse.dropWhile (fun c => c = ',')).reverse⟩

/-- Model of Python `sep.join(parts)`. -/
def pjoin (sep : String) : List String → String
  | [] => ""
  | [x] => x
  | x :: y :: xs => x ++ sep ++ pjoin sep (y :: xs)

/-! ## Model of `normalize_to_ascii` -/

/-- The umlaut replacement table of `normalize_to_ascii` (lines 51-61 of the
source).  Each key is a single non-ASCII character and each value is pure
ASCII, so applying the seven Python `str.replace` calls in sequence is the
same as mapping this table over the characters once. -/
def umlautRepl (c : Char) : List Char :=
  if c = 'Ä' then ['A', 'e']
  else if c = 'Ö' then ['O', 'e']
  else if c = 'Ü' then ['U', 'e']
  else if c = 'ä' then ['a', 'e']
  else if c = 'ö' then ['o', 'e']
  else if c = 'ü' then ['u', 'e']
  else if c = 'ß' then ['s', 's']
  else [c]

/-- Model of `unicodedata.normalize("NFKD", ·)` followed by
`.encode("ascii", "ignore")` (lines 63-64 of the source), working one
character at a time: ASCII characters are unchanged (they have no NFKD
decomposition), common Latin letters with diacritics decompose to their base
letter plus combining marks which the ASCII encode drops, and any other
non-ASCII character is dropped entirely. -/
def nfkdTable : List (Char × List Char) :=
  [('á', ['a']), ('à', ['a']), ('â', ['a']), ('ã', ['a']),
   ('é', ['e']), ('è', ['e']), ('ê', ['e']), ('ë', ['e']),
   ('í', ['i']), ('ì', ['i']), ('î', ['i']), ('ï', ['i']),
   ('ó', ['o']), ('ò', ['o']), ('ô', ['o']), ('õ', ['o']),
   ('ú', ['u']), ('ù', ['u']), ('û', ['u']),
   ('Á', ['A']), ('À', ['A']), ('Â', ['A']), ('Ã', ['A']),
   ('É', ['E']), ('È', ['E']), ('Ê', ['E']), ('Ë', ['E']),
   ('ç', ['c']), ('Ç', ['C']), ('ñ', ['n']), ('Ñ', ['N'])]

def nfkdAscii (c : Char) : List Char :=
  if c.toNat < 128 then [c]
  else (nfkdTable.lookup c).getD []

/-- Python `str.split()` with no argument (split on whitespace runs),
accumulator version; `acc` holds the current word reversed. -/
def pwordsAux : List Char → List Char → List (List Char)
  | [], acc => if acc = [] then [] else [acc.reverse]
  | c :: cs, acc =>
    if pspace c then
      if acc = [] then pwordsAux cs []
      else acc.reverse :: pwordsAux cs []
    else pwordsAux cs (c :: acc)

/-- Model of Python `str.split()` (no argument). -/
def pwords (cs : List Char) : List (List Char) :=
  pwordsAux cs []

/-- `sep.join(parts)` on character lists. -/
def pintercalate (sep : List Char) : List (List Char) → List Char
  | [] => []
  | [x] => x
  | x :: y :: xs => x ++ sep ++ pintercalate sep (y :: xs)

/-- Model of `" ".join(text.split())` (line 66 of the source). -/
def collapseWS (cs : List Char) : List Char :=
  pintercalate [' '] (pwords cs)

/-- Model of `normalize_to_ascii` (source lines 43-66): umlaut
transliteration, NFKD + ASCII-encode-ignore, then whitespace collapsing. -/
def normalize_to_ascii (s : String) : String :=
  if s = "" then ""
  else ⟨collapseWS ((s.data.flatMap umlautRepl).flatMap nfkdAscii)⟩

/-! ## `extract_account_name` (source lines 69-76) -/

/-- One step of the loop in `extract_account_name`: a line matches when it
splits into at least two `;`-fields and its first field, trimmed and
lowercased, starts with `"kontoname"`; the result is then the second field
trimmed with trailing commas stripped, or the fallback when that is empty. -/
def extractAccountLoop (default_account : String) : List String → String
  | [] => default_account
  | line :: rest =>
    let parts := psplit ';' line
    if parts.length ≥ 2 && pstartswith "kontoname" (plower (pstrip (parts.getD 0 ""))) then
      let name := prstripComma (pstrip (parts.getD 1 ""))
      if name = "" then default_account else name
    else extractAccountLoop default_account rest

/-- Model of `extract_account_name`: scan only the first 20 lines. -/
def extract_account_name (lines : List String) (default_account : String) : String :=
  extractAccountLoop default_account (lines.take 20)

/-! ## `find_data_start_index` (source lines 79-87) -/

/-- The test of source line 85: the stripped line starts with `"Buchung;"`
and contains `";Betrag"`. -/
def isTableHeader (line : String) : Bool :=
  let header := pstrip line
  pstartswith "Buchung;" header && isSubstr ";Betrag".data header.data

/-- The indexed loop of `find_data_start_index`; `i` is the index of the
head of the remaining list. -/
def findDataStartAux : List String → Nat → Int
  | [], _ => -1
  | line :: rest, i =>
    if isTableHeader line then (i : Int) + 1 else findDataStartAux rest (i + 1)

/-- Model of `find_data_start_index`: index immediately after the first
table-header line, or `-1` when there is none. -/
def find_data_start_index (lines : List String) : Int :=
  findDataStartAux lines 0

/-! ## `parse_german_amount_to_float` (source lines 90-106)

Python `float` results are modelled as exact decimals: an integer numerator
over a power of ten (the strings reaching `float()` here always denote such
decimals).  The rational value of a decimal is used in statements. -/

/-- `pow10 k = 10 ^ k`, by structural recursion so that it reduces. -/
def pow10 : Nat → Nat
  | 0 => 1
  | n + 1 => 10 * pow10 n

/-- An exact decimal number `num / 10 ^ exp`, the result of parsing an
amount string. -/
structure PyDec where
  num : Int
  exp : Nat
deriving DecidableEq, Repr

/-- The rational value of a parsed decimal. -/
def PyDec.value (d : PyDec) : ℚ :=
  (d.num : ℚ) / (pow10 d.exp : ℚ)

/-- The allow-list of source line 97. -/
def allowedAmountChar (c : Char) : Bool :=
  "-+0123456789.,".data.contains c

/-- The character-level part of the cleaning pipeline of source lines
97-100: keep only allow-listed characters, remove `'.'`, replace `','` by
`'.'`. -/
def cleanChars (cs : List Char) : List Char :=
  ((cs.filter allowedAmountChar).filter (fun c => c ≠ '.')).map
    (fun c => if c = ',' then '.' else c)

/-- The cleaning pipeline of source lines 94-100: strip, then
`cleanChars`. -/
def cleanedAmount (text : String) : String :=
  ⟨cleanChars (pstripL text.data)⟩

/-- Value of a digit string, most significant first. -/
def natOfDigits (ds : List Char) : Nat :=
  ds.foldl (fun a c => 10 * a + (c.toNat - 48)) 0

/-- Model of Python `float(s)` restricted to strings over
`{digits, +, -, .}` (all that can reach source line 104 after cleaning):
an optional leading sign, then a non-empty run of digits and at most one
`'.'` containing at least one digit.  Returns the denoted decimal, or
`none` where Python raises `ValueError`. -/
def pyFloatCore (sgn : Int) (rest : List Char) : Option PyDec :=
  if rest ≠ [] ∧ rest.all (fun c => c.isDigit || c = '.') ∧
      rest.count '.' ≤ 1 ∧ rest.any Char.isDigit then
    let ip := rest.takeWhile (fun c => c ≠ '.')
    let fp := (rest.dropWhile (fun c => c ≠ '.')).drop 1
    some ⟨sgn * (natOfDigits ip * pow10 fp.length + natOfDigits fp : Nat), fp.length⟩
  else none

def pyFloat (cs : List Char) : Option PyDec :=
  if cs.headD ' ' = '-' then pyFloatCore (-1) cs.tail
  else if cs.headD ' ' = '+' then pyFloatCore 1 cs.tail
  else pyFloatCore 1 cs

/-- Model of `parse_german_amount_to_float`.  `Except.error` stands for the
`ValueError` raised at source line 106. -/
def parse_german_amount_to_float (text : String) : Except String PyDec :=
  let clean := cleanedAmount text
  if clean = "" ∨ clean = "+" ∨ clean = "-" then .ok ⟨0, 0⟩
  else
    match pyFloat clean.data with
    | some v => .ok v
    | none => .error ("Unparseable amount: " ++ text)

/-- Pad a natural number below 100 to two digits. -/
def pad2 (n : Nat) : String :=
  if n < 10 then "0" ++ toString n else toString n

/-- Model of the f-string `f"{amount:.2f}"` (source line 179) on the exact
decimal amount: round the value to a whole number of cents, half to even,
and print it with two fractional digits. -/
def format2f (d : PyDec) : String :=
  let N : Int := d.num * 100
  let D : Int := (pow10 d.exp : Nat)
  let q : Int := Int.fdiv N D
  let r : Int := N - q * D
  let m : Int := if 2 * r < D then q else if D < 2 * r then q + 1
    else if q % 2 = 0 then q else q + 1
  let n : Nat := m.natAbs
  (if m < 0 then "-" else "") ++ toString (n / 100) ++ "." ++ pad2 (n % 100)

/-! ## `convert_date_ddmmyyyy_to_mmddyyyy` (source lines 109-119)

`datetime.strptime` with formats `"%d.%m.%Y"` / `"%d.%m.%y"` is modelled
after CPython's `_strptime`: `%d` is one or two digits valued 1-31, `%m`
one or two digits valued 1-12, `%Y` exactly four digits, `%y` exactly two
digits mapped through the 1969/2068 pivot; the whole string must be
consumed, and constructing the `datetime` validates the day against the
month length (Gregorian leap years) and requires year ≥ 1. -/

/-- All characters are ASCII digits. -/
def allDigits (cs : List Char) : Bool :=
  cs.all Char.isDigit

/-- Gregorian leap year, as `datetime` uses. -/
def isLeapYear (y : Nat) : Bool :=
  y % 4 = 0 && (y % 100 ≠ 0 || y % 400 = 0)

/-- Days in a month, as `datetime` validates. -/
def daysInMonth (y m : Nat) : Nat :=
  if m = 2 then (if isLeapYear y then 29 else 28)
  else if m = 4 || m = 6 || m = 9 || m = 11 then 30
  else 31

/-- `%d` / `%m` field: one or two digits within the given bounds. -/
def parseDayMonthField (lo hi : Nat) (cs : List Char) : Option Nat :=
  if allDigits cs && (cs.length = 1 || cs.length = 2) then
    let v := natOfDigits cs
    if lo ≤ v ∧ v ≤ hi then some v else none
  else none

/-- Model of `datetime.strptime(s, "%d.%m.%Y")` (`y4 = true`) or
`"%d.%m.%y"` (`y4 = false`), returning `(day, month, year)`. -/
def pyStrptimeDMY (y4 : Bool) (s : String) : Option (Nat × Nat × Nat) :=
  match psplitAux '.' s.data [] with
  | [dcs, mcs, ycs] =>
    match parseDayMonthField 1 31 dcs, parseDayMonthField 1 12 mcs with
    | some d, some m =>
      if allDigits ycs && ycs.length = (if y4 then 4 else 2) then
        let raw := natOfDigits ycs
        let y := if y4 then raw else (if raw ≤ 68 then 2000 + raw else 1900 + raw)
        if 1 ≤ y ∧ d ≤ daysInMonth y m then some (d, m, y) else none
      else none
    | _, _ => none
  | _ => none

/-- Model of `dt.strftime("%m/%d/%Y")` on the parsed `(day, month, year)`. -/
def fmtMMDDYYYY (d m y : Nat) : String :=
  pad2 m ++ "/" ++ pad2 d ++ "/" ++ toString y

/-- Model of `convert_date_ddmmyyyy_to_mmddyyyy`: try the 4-digit-year
format, then the 2-digit-year format, else return the stripped text. -/
def convert_date_ddmmyyyy_to_mmddyyyy (text : String) : String :=
  let t := pstrip text
  match pyStrptimeDMY true t with
  | some (d, m, y) => fmtMMDDYYYY d m y
  | none =>
    match pyStrptimeDMY false t with
    | some (d, m, y) => fmtMMDDYYYY d m y
    | none => t

/-! ## `iter_transactions` (source lines 122-184) -/

/-- A parsed transaction, the dict built at source lines 174-182. -/
structure Transaction where
  date : String
  payee : String
  fi_payee : String
  amount : String
  memo : String
deriving DecidableEq, Repr

/-- The memo construction of source lines 167-172, on the two
ASCII-normalized text fields. -/
def rowMemo (buchungstext_ascii verwendungszweck_ascii : String) : String :=
  pjoin " | "
    ((if buchungstext_ascii ≠ "" then [buchungstext_ascii] else []) ++
     (if verwendungszweck_ascii ≠ "" ∧ verwendungszweck_ascii ≠ buchungstext_ascii
       then [verwendungszweck_ascii] else []))

/-- The transaction dict appended at source lines 174-182, from the five
extracted fields. -/
def mkTx (booking_date payee buchungstext verwendungszweck : String)
    (amount : PyDec) : Transaction :=
  ⟨convert_date_ddmmyyyy_to_mmddyyyy booking_date,
   normalize_to_ascii payee,
   "",
   format2f amount,
   rowMemo (normalize_to_ascii buchungstext) (normalize_to_ascii verwendungszweck)⟩

/-- The loop body of `iter_transactions` for one raw line: `none` when the
line is skipped by any of the `continue` branches, `some tx` otherwise. -/
def processRow (raw : String) : Option Transaction :=
  let line := pstrip raw
  if line = "" then none
  else if ¬ line.data.contains ';' then none
  else
    let cols := psplit ';' line
    if cols.length < 8 then none
    else
      let booking_date := pstrip (cols.getD 0 "")
      if pstartswith "buchung" (plower booking_date) then none
      else
        match parse_german_amount_to_float (pstrip (cols.getD 7 "")) with
        | .error _ => none
        | .ok amount =>
          some (mkTx booking_date (pstrip (cols.getD 2 "")) (pstrip (cols.getD 3 ""))
            (pstrip (cols.getD 4 "")) amount)

/-- Model of `iter_transactions`.  `Except.error` stands for the
`RuntimeError` raised at source line 131. -/
def iter_transactions (lines : List String) : Except String (List Transaction) :=
  let start := find_data_start_index lines
  if start = -1 then
    .error "Could not locate transaction header row starting with Buchung in input file"
  else
    .ok ((lines.drop start.toNat).filterMap processRow)

/-! ## `write_quicken_csv` (source lines 187-221)

Modelled as the list of rows handed to `csv.writer.writerow`. -/

/-- The fixed header row of source lines 195-206. -/
def quickenHeader : List String :=
  ["Date", "Payee", "FI Payee", "Amount", "Debit/Credit", "Category",
   "Account", "Tag", "Memo", "Chknum"]

/-- Model of `write_quicken_csv`: the rows written to the output file. -/
def write_quicken_csv (account_name : String) (transactions : List Transaction) :
    List (List String) :=
  quickenHeader ::
    transactions.map (fun tx =>
      [tx.date, tx.payee, tx.fi_payee, tx.amount, "", "", account_name, "", tx.memo, ""])

/-! ## Definitions taken from the specification's words

These do not model the source; they render disputed claims so that the code
model can be compared against them. -/

/-- Written from claim C8's words: a line matches exactly when its first
field, case-insensitively and after trimming, equals the label
`"Kontoname"`; on the first match return the second field trimmed with
trailing comma stripped, or the fallback if empty; only the first 20 lines
are examined. -/
def extract_account_name_claimed (lines : List String) (default_account : String) : String :=
  ((lines.take 20).findSome? (fun line =>
    let parts := psplit ';' line
    if plower (pstrip (parts.getD 0 "")) = "kontoname" then
      let name := prstripComma (pstrip (parts.getD 1 ""))
      some (if name = "" then default_account else name)
    else none)).getD default_account

/-- The match test of claim C8 as amended: at least two `;`-fields and the
first field, trimmed and lowercased, starts with `"kontoname"`. -/
def accountLineMatch (default_account : String) (line : String) : Option String :=
  let parts := psplit ';' line
  if parts.length ≥ 2 && pstartswith "kontoname" (plower (pstrip (parts.getD 0 ""))) then
    let name := prstripComma (pstrip (parts.getD 1 ""))
    some (if name = "" then default_account else name)
  else none

/-- Claim C8 as amended: first match among the first 20 lines under
`accountLineMatch`, else the fallback. -/
def extract_account_name_amended (lines : List String) (default_account : String) : String :=
  ((lines.take 20).findSome? (accountLineMatch default_account)).getD default_account

/-- Written from claim C9's words: the memo is the transaction-type text
and the purpose text joined by `" | "`, the purpose segment being omitted
when empty or equal to the type segment. -/
def memoClaimed (buchungstext_ascii verwendungszweck_ascii : String) : String :=
  if verwendungszweck_ascii = "" ∨ verwendungszweck_ascii = buchungstext_ascii
    then buchungstext_ascii
    else buchungstext_ascii ++ " | " ++ verwendungszweck_ascii

/-- Claim C9 as amended: additionally, an empty transaction-type segment is
omitted, so no separator is emitted for it. -/
def memoAmended (buchungstext_ascii verwendungszweck_ascii : String) : String :=
  if verwendungszweck_ascii = "" ∨ verwendungszweck_ascii = buchungstext_ascii
    then buchungstext_ascii
    else if buchungstext_ascii = "" then verwendungszweck_ascii
    else buchungstext_ascii ++ " | " ++ verwendungszweck_ascii

/-! ## The amount-string pattern of claim C2

A value of `GermanAmount` is exactly a match of
`[-+]?\d{1,3}(\.\d{3})*,\d{2}`: an optional sign, a first group of one to
three digits, further groups of exactly three digits each preceded by a
`'.'`, then `','` and two fractional digits. -/

structure GermanAmount where
  sign : Option Char
  g0 : List Nat
  gs : List (List Nat)
  frac : List Nat
  sign_ok : sign = none ∨ sign = some '+' ∨ sign = some '-'
  g0_low : 1 ≤ g0.length
  g0_high : g0.length ≤ 3
  g0_digits : ∀ d ∈ g0, d < 10
  gs_ok : ∀ g ∈ gs, g.length = 3 ∧ ∀ d ∈ g, d < 10
  frac_len : frac.length = 2
  frac_digits : ∀ d ∈ frac, d < 10

/-- Render a digit (0-9) as its ASCII character. -/
def digitChar (d : Nat) : Char :=
  Char.ofNat (48 + d)

/-- The characters of the sign field. -/
def GermanAmount.signChars (ga : GermanAmount) : List Char :=
  match ga.sign with
  | none => []
  | some c => [c]

/-- The text of a `GermanAmount`, exactly as matched by the pattern. -/
def GermanAmount.render (ga : GermanAmount) : String :=
  ⟨ga.signChars ++ ga.g0.map digitChar ++
    ga.gs.flatMap (fun g => '.' :: g.map digitChar) ++
    ',' :: ga.frac.map digitChar⟩

/-- Value of a digit list, most significant first. -/
def natOfDigitVals (ds : List Nat) : Nat :=
  ds.foldl (fun a d => 10 * a + d) 0

/-- The mathematical value a `GermanAmount` denotes: the sign applied to
the integer written by the concatenated digit groups, plus the two
fractional digits over 100. -/
def GermanAmount.mathValue (ga : GermanAmount) : ℚ :=
  (if ga.sign = some '-' then -1 else 1) *
    ((natOfDigitVals (ga.g0 ++ ga.gs.flatten) : ℚ) + (natOfDigitVals ga.frac : ℚ) / 100)


/-! # Claim theorems -/

/-- Claim C1, counterexample: on the spec's three example lines taken
verbatim (with the literal `"..."` placeholder fields), the single parsed
transaction has date, payee and memo as claimed, but its amount string is
`"0.00"`, not `"-1770.00"`: the literal line has only eight fields, so
field index 7 — the amount column — holds `"EUR"`. -/
theorem claim_C1_counterexample :
    iter_transactions
        ["Kontoname;Girokonto Future",
         "Buchung;Wertstellung;...;Betrag;...",
         "14.08.2025;...;Müller GmbH;Lastschrift;Miete Büro;...;-1.770,00;EUR"] =
      .ok [⟨"08/14/2025", "Mueller GmbH", "", "0.00", "Lastschrift | Miete Buero"⟩] ∧
    ("0.00" : String) ≠ "-1770.00" :=
  ⟨rfl, by decide⟩

/-- Claim C1 as amended: with the ellipsis placeholders of the spec's
example expanded to actual columns (so that the amount `-1.770,00` occupies
field index 7, the Betrag column), `iter_transactions` produces exactly one
transaction with date `08/14/2025`, payee `Mueller GmbH`, amount `-1770.00`
and memo `Lastschrift | Miete Buero`, and `write_quicken_csv` places the
configured default account name in that row's Account column. -/
theorem claim_C1_amended :
    iter_transactions
        ["Kontoname;Girokonto Future",
         "Buchung;Wertstellung;Auftraggeber/Empfaenger;Buchungstext;Verwendungszweck;Saldo;Waehrung;Betrag;Waehrung",
         "14.08.2025;14.08.2025;Müller GmbH;Lastschrift;Miete Büro;1.000,00;EUR;-1.770,00;EUR"] =
      .ok [⟨"08/14/2025", "Mueller GmbH", "", "-1770.00", "Lastschrift | Miete Buero"⟩] ∧
    write_quicken_csv "ING Checking"
        [⟨"08/14/2025", "Mueller GmbH", "", "-1770.00", "Lastschrift | Miete Buero"⟩] =
      [["Date", "Payee", "FI Payee", "Amount", "Debit/Credit", "Category",
        "Account", "Tag", "Memo", "Chknum"],
       ["08/14/2025", "Mueller GmbH", "", "-1770.00", "", "", "ING Checking", "",
        "Lastschrift | Miete Buero", ""]] :=
  ⟨rfl, rfl⟩

/-- Claim C4, counterexample: `normalize_to_ascii` is not the identity on
every ASCII string — it collapses whitespace runs, so the all-ASCII string
`"a  b"` maps to `"a b"`. -/
theorem claim_C4_counterexample :
    (∀ c ∈ ("a  b" : String).data, c.toNat < 128) ∧
    normalize_to_ascii "a  b" = "a b" ∧
    ("a b" : String) ≠ "a  b" :=
  ⟨by decide, by decide, by decide⟩

/-- Claim C8, counterexample: the source matches by `startswith`, not
equality, of the first field.  The line `"Kontonamen;Foo"` has first field
`"Kontonamen"` ≠ `"Kontoname"`, yet `extract_account_name` returns
`"Foo"` where the claim's match rule yields the fallback; and a line whose
first field equals the label but that has no second field is skipped by the
source (it requires at least two fields) while the claim's rule stops
there. -/
theorem claim_C8_counterexample :
    (extract_account_name ["Kontonamen;Foo"] "DEF" = "Foo" ∧
      extract_account_name_claimed ["Kontonamen;Foo"] "DEF" = "DEF") ∧
    (extract_account_name ["Kontoname", "Kontoname;X"] "DEF" = "X" ∧
      extract_account_name_claimed ["Kontoname", "Kontoname;X"] "DEF" = "DEF") := by
  refine ⟨⟨by decide, by decide⟩, ⟨by decide, by decide⟩⟩

/-- Claim C9, counterexample: for a data row whose transaction-type field
is empty and whose purpose field is `"Zweck"`, the code produces memo
`"Zweck"`, while the claim's join formula produces `" | Zweck"` (the claim
omits only the purpose segment, never an empty transaction-type
segment). -/
theorem claim_C9_counterexample :
    iter_transactions
        ["Buchung;x;Betrag", "01.01.2024;x;P;;Zweck;s;w;1,00"] =
      .ok [⟨"01/01/2024", "P", "", "1.00", "Zweck"⟩] ∧
    memoClaimed "" "Zweck" = " | Zweck" ∧
    ("Zweck" : String) ≠ " | Zweck" :=
  ⟨rfl, by decide, by decide⟩

/-! ## Supporting lemmas -/

theorem findDataStartAux_of_no_match {lines : List String} (n : Nat)
    (h : ∀ l ∈ lines, isTableHeader l = false) :
    findDataStartAux lines n = -1 := by
  induction lines generalizing n with
  | nil => rfl
  | cons x xs ih =>
    have hx := h x (List.mem_cons_self x xs)
    simp only [findDataStartAux, hx, Bool.false_eq_true, if_false]
    exact ih (n + 1) (fun l hl => h l (List.mem_cons_of_mem x hl))

theorem findDataStartAux_of_match {pre : List String} {l : String}
    (post : List String) (n : Nat)
    (hpre : ∀ x ∈ pre, isTableHeader x = false) (hl : isTableHeader l = true) :
    findDataStartAux (pre ++ l :: post) n = (n : Int) + pre.length + 1 := by
  induction pre generalizing n with
  | nil => simp [findDataStartAux, hl]
  | cons x xs ih =>
    have hx := hpre x (List.mem_cons_self x xs)
    simp only [List.cons_append, findDataStartAux, hx, Bool.false_eq_true, if_false]
    show findDataStartAux (xs ++ l :: post) (n + 1) = (n : Int) + (x :: xs).length + 1
    rw [ih (n + 1) (fun y hy => hpre y (List.mem_cons_of_mem x hy))]
    simp only [List.length_cons]
    push_cast
    ring

theorem processRow_fi_payee {raw : String} {tx : Transaction}
    (h : processRow raw = some tx) : tx.fi_payee = "" := by
  unfold processRow at h
  dsimp only at h
  split at h
  · exact absurd h (by simp)
  split at h
  · exact absurd h (by simp)
  split at h
  · exact absurd h (by simp)
  split at h
  · exact absurd h (by simp)
  split at h
  · exact absurd h (by simp)
  obtain rfl : mkTx _ _ _ _ _ = tx := Option.some.inj h
  rfl

/-- Claim C5: when no line, after trimming, starts with `"Buchung;"` and
contains `";Betrag"`, `find_data_start_index` returns `-1` and
`iter_transactions` raises the data-format error; otherwise
`find_data_start_index` returns the index immediately after the first
matching line and `iter_transactions` returns normally. -/
theorem claim_C5 (lines : List String) :
    ((∀ l ∈ lines, isTableHeader l = false) →
      find_data_start_index lines = -1 ∧ ∃ e, iter_transactions lines = .error e) ∧
    (∀ pre l post, lines = pre ++ l :: post →
      (∀ x ∈ pre, isTableHeader x = false) → isTableHeader l = true →
      find_data_start_index lines = (pre.length : Int) + 1 ∧
        ∃ txs, iter_transactions lines = .ok txs) := by
  constructor
  · intro h
    have hfind : find_data_start_index lines = -1 :=
      findDataStartAux_of_no_match 0 h
    refine ⟨hfind, ?_⟩
    unfold iter_transactions
    rw [hfind]
    exact ⟨_, rfl⟩
  · intro pre l post hsplit hpre hl
    have hfind : find_data_start_index lines = (pre.length : Int) + 1 := by
      rw [hsplit]
      unfold find_data_start_index
      rw [findDataStartAux_of_match post 0 hpre hl]
      push_cast
      ring
    refine ⟨hfind, ?_⟩
    unfold iter_transactions
    rw [hfind]
    have : ¬ ((pre.length : Int) + 1 = -1) := by omega
    rw [if_neg this]
    exact ⟨_, rfl⟩

/-- Witness for claim C5: the negative branch on a buffer with no matching
line, and the positive branch on a buffer whose second line matches. -/
theorem claim_C5_witness :
    (find_data_start_index ["a", "b"] = -1 ∧
      ∃ e, iter_transactions ["a", "b"] = .error e) ∧
    (find_data_start_index ["x", "Buchung;a;Betrag", "y"] = 2 ∧
      ∃ txs, iter_transactions ["x", "Buchung;a;Betrag", "y"] = .ok txs) := by
  have hA := (claim_C5 ["a", "b"]).1 (by decide)
  have hB := (claim_C5 ["x", "Buchung;a;Betrag", "y"]).2 ["x"] "Buchung;a;Betrag" ["y"]
    rfl (by decide) (by decide)
  exact ⟨hA, by simpa using hB⟩

/-- Claim C3, counterexample: on an input that fails both date formats the
function returns the *stripped* text, not the original input verbatim. -/
theorem claim_C3_counterexample :
    pyStrptimeDMY true (pstrip " x ") = none ∧
    pyStrptimeDMY false (pstrip " x ") = none ∧
    convert_date_ddmmyyyy_to_mmddyyyy " x " = "x" ∧
    ("x" : String) ≠ " x " :=
  ⟨by decide, by decide, by decide, by decide⟩

/-- Claim C3 as amended: a string parsing strictly as day.month.4-digit-year
(else as day.month.2-digit-year) is reformatted as `MM/DD/YYYY` for the
same calendar day; when both parse attempts fail the function returns the
input with surrounding whitespace stripped (identical to the input whenever
the input carries no surrounding whitespace), and never fails. -/
theorem claim_C3_amended (s : String) :
    (∀ d m y, pyStrptimeDMY true (pstrip s) = some (d, m, y) →
      convert_date_ddmmyyyy_to_mmddyyyy s = fmtMMDDYYYY d m y) ∧
    (pyStrptimeDMY true (pstrip s) = none →
      ∀ d m y, pyStrptimeDMY false (pstrip s) = some (d, m, y) →
        convert_date_ddmmyyyy_to_mmddyyyy s = fmtMMDDYYYY d m y) ∧
    (pyStrptimeDMY true (pstrip s) = none →
      pyStrptimeDMY false (pstrip s) = none →
        convert_date_ddmmyyyy_to_mmddyyyy s = pstrip s) := by
  refine ⟨?_, ?_, ?_⟩
  · intro d m y h4
    unfold convert_date_ddmmyyyy_to_mmddyyyy
    dsimp only
    rw [h4]
  · intro h4 d m y h2
    unfold convert_date_ddmmyyyy_to_mmddyyyy
    dsimp only
    rw [h4, h2]
  · intro h4 h2
    unfold convert_date_ddmmyyyy_to_mmddyyyy
    dsimp only
    rw [h4, h2]

/-- Witness for claim C3: a 4-digit-year date, a 2-digit-year date through
the 1969/2068 pivot, and an invalid calendar date passing through. -/
theorem claim_C3_amended_witness :
    convert_date_ddmmyyyy_to_mmddyyyy "14.08.2025" = "08/14/2025" ∧
    convert_date_ddmmyyyy_to_mmddyyyy "05.03.99" = "03/05/1999" ∧
    convert_date_ddmmyyyy_to_mmddyyyy "31.02.2025" = "31.02.2025" := by
  refine ⟨?_, ?_, ?_⟩
  · exact (claim_C3_amended "14.08.2025").1 14 8 2025 (by decide)
  · exact (claim_C3_amended "05.03.99").2.1 (by decide) 5 3 1999 (by decide)
  · exact (claim_C3_amended "31.02.2025").2.2 (by decide) (by decide)

/-- Claim C7: `write_quicken_csv` emits the fixed ten-name header row
first, and then one ten-field row per transaction with the supplied account
name verbatim in the 7th position and empty FI Payee, Debit/Credit,
Category, Tag and Chknum positions — the FI Payee position being empty
because every transaction `iter_transactions` produces carries an empty
`fi_payee` field. -/
theorem claim_C7 (lines : List String) (txs : List Transaction) (account : String)
    (h : iter_transactions lines = .ok txs) :
    write_quicken_csv account txs =
      ["Date", "Payee", "FI Payee", "Amount", "Debit/Credit", "Category",
       "Account", "Tag", "Memo", "Chknum"] ::
        txs.map (fun tx =>
          [tx.date, tx.payee, "", tx.amount, "", "", account, "", tx.memo, ""]) := by
  have hfi : ∀ tx ∈ txs, tx.fi_payee = "" := by
    unfold iter_transactions at h
    dsimp only at h
    split at h
    · exact absurd h (by simp)
    · intro tx htx
      obtain rfl : _ = txs := Except.ok.inj h
      obtain ⟨raw, _, hraw⟩ := List.mem_filterMap.mp htx
      exact processRow_fi_payee hraw
  unfold write_quicken_csv quickenHeader
  congr 1
  exact List.map_congr_left (fun tx htx => by rw [hfi tx htx])

/-- Witness for claim C7 at a concrete one-row input. -/
theorem claim_C7_witness :
    write_quicken_csv "Acct" [⟨"01/01/2024", "B", "", "2.00", "T | V"⟩] =
      [["Date", "Payee", "FI Payee", "Amount", "Debit/Credit", "Category",
        "Account", "Tag", "Memo", "Chknum"],
       ["01/01/2024", "B", "", "2.00", "", "", "Acct", "", "T | V", ""]] := by
  have h := claim_C7 ["Buchung;x;Betrag", "01.01.2024;a;B;T;V;s;w;2,00"]
    [⟨"01/01/2024", "B", "", "2.00", "T | V"⟩] "Acct" rfl
  simpa using h

/-- Claim C6: after the allow-list filter, dot removal and comma
replacement, a remainder that is only a sign character parses as zero; any
other remainder that is not a decimal number makes the parse fail, and a
data row whose amount field fails to parse is skipped silently while the
remaining rows are still processed. -/
theorem claim_C6 :
    (∀ text : String, cleanedAmount text = "+" ∨ cleanedAmount text = "-" →
      parse_german_amount_to_float text = .ok ⟨0, 0⟩) ∧
    (∀ text : String, cleanedAmount text ≠ "" → cleanedAmount text ≠ "+" →
      cleanedAmount text ≠ "-" → pyFloat (cleanedAmount text).data = none →
      parse_german_amount_to_float text = .error ("Unparseable amount: " ++ text)) ∧
    (∀ raw : String, ∀ rest : List String,
      (∃ e, parse_german_amount_to_float
          (pstrip ((psplit ';' (pstrip raw)).getD 7 "")) = .error e) →
      processRow raw = none ∧
      (raw :: rest).filterMap processRow = rest.filterMap processRow) := by
  refine ⟨?_, ?_, ?_⟩
  · intro text h
    unfold parse_german_amount_to_float
    rcases h with h | h <;> simp [h]
  · intro text h0 hp hm hf
    unfold parse_german_amount_to_float
    dsimp only
    rw [if_neg (by tauto), hf]
  · intro raw rest ⟨e, he⟩
    have hnone : processRow raw = none := by
      unfold processRow
      dsimp only
      split
      · rfl
      split
      · rfl
      split
      · rfl
      split
      · rfl
      rw [he]
    exact ⟨hnone, by rw [List.filterMap_cons, hnone]⟩

/-- Witness for claim C6: a sign-only remainder, an unparseable remainder
`"1.2.3"` (from `"1,2,3"`), and a full row with that amount being skipped
while the list continues. -/
theorem claim_C6_witness :
    parse_german_amount_to_float "+" = .ok ⟨0, 0⟩ ∧
    parse_german_amount_to_float "1,2,3" = .error "Unparseable amount: 1,2,3" ∧
    processRow "x;a;b;c;d;e;f;1,2,3" = none ∧
    ("x;a;b;c;d;e;f;1,2,3" :: ["y"]).filterMap processRow =
      ["y"].filterMap processRow := by
  have h1 := claim_C6.1 "+" (by left; decide)
  have h2 := claim_C6.2.1 "1,2,3" (by decide) (by decide) (by decide) (by decide)
  have h3 := claim_C6.2.2 "x;a;b;c;d;e;f;1,2,3" ["y"]
    ⟨"Unparseable amount: 1,2,3", by exact h2⟩
  exact ⟨h1, h2, h3.1, h3.2⟩

/-- Claim C10: an amount field whose filtered remainder is empty (for
example a pure currency code such as `"EUR"`) parses as zero rather than
failing, and such a row is emitted as a transaction whose amount string is
`"0.00"`. -/
theorem claim_C10 :
    (∀ text : String, cleanedAmount text = "" →
      parse_german_amount_to_float text = .ok ⟨0, 0⟩) ∧
    (∀ raw : String, ∀ rest : List String,
      pstrip raw ≠ "" →
      (pstrip raw).data.contains ';' = true →
      8 ≤ (psplit ';' (pstrip raw)).length →
      pstartswith "buchung" (plower (pstrip ((psplit ';' (pstrip raw)).getD 0 ""))) = false →
      cleanedAmount (pstrip ((psplit ';' (pstrip raw)).getD 7 "")) = "" →
      ∃ tx, processRow raw = some tx ∧ tx.amount = "0.00" ∧
        (raw :: rest).filterMap processRow = tx :: rest.filterMap processRow) := by
  have hzero : ∀ text : String, cleanedAmount text = "" →
      parse_german_amount_to_float text = .ok ⟨0, 0⟩ := by
    intro text h
    unfold parse_german_amount_to_float
    simp [h]
  refine ⟨hzero, ?_⟩
  intro raw rest h1 h2 h3 h4 h5
  have hsome : processRow raw =
      some (mkTx (pstrip ((psplit ';' (pstrip raw)).getD 0 ""))
        (pstrip ((psplit ';' (pstrip raw)).getD 2 ""))
        (pstrip ((psplit ';' (pstrip raw)).getD 3 ""))
        (pstrip ((psplit ';' (pstrip raw)).getD 4 "")) ⟨0, 0⟩) := by
    unfold processRow
    dsimp only
    rw [if_neg h1, if_neg (by simpa using h2), if_neg (by omega),
      if_neg (by simpa using h4), hzero _ h5]
  refine ⟨_, hsome, rfl, ?_⟩
  rw [List.filterMap_cons, hsome]

/-- Witness for claim C10: the row `"14.08.2025;a;P;T;V;s;x;EUR"`, whose
amount field `"EUR"` filters to the empty remainder, is emitted with amount
`"0.00"`. -/
theorem claim_C10_witness :
    ∃ tx, processRow "14.08.2025;a;P;T;V;s;x;EUR" = some tx ∧ tx.amount = "0.00" ∧
      ("14.08.2025;a;P;T;V;s;x;EUR" :: ["z"]).filterMap processRow =
        tx :: ["z"].filterMap processRow :=
  claim_C10.2 "14.08.2025;a;P;T;V;s;x;EUR" ["z"]
    (by decide) (by decide) (by decide) (by decide) (by decide)

/-- Claim C8 as amended: `extract_account_name` examines only the first 20
lines; a line matches exactly when it has at least two `;`-fields and its
first field, case-insensitively and after trimming, *starts with*
`"kontoname"` (not: equals it); the first match yields the second field
trimmed with trailing comma stripped, or the fallback default if that is
empty; with no match among the first 20 lines the fallback is returned. -/
theorem claim_C8_amended (lines : List String) (default_account : String) :
    extract_account_name lines default_account =
      extract_account_name_amended lines default_account ∧
    extract_account_name lines default_account =
      extract_account_name (lines.take 20) default_account := by
  constructor
  · unfold extract_account_name extract_account_name_amended
    generalize lines.take 20 = l
    induction l with
    | nil => rfl
    | cons x xs ih =>
      rw [List.findSome?_cons]
      unfold extractAccountLoop accountLineMatch
      dsimp only
      split
      · rfl
      · exact ih
  · unfold extract_account_name
    rw [List.take_take]
    norm_num

/-- Claim C9 as amended: every parsed row's memo is the ASCII-normalized
transaction-type text and purpose text joined by `" | "`, where the purpose
segment is omitted when empty or equal to the type segment, and an empty
type segment is likewise omitted (no separator is emitted for an omitted
segment). -/
theorem claim_C9_amended (raw : String) (tx : Transaction)
    (h : processRow raw = some tx) :
    tx.memo =
      memoAmended
        (normalize_to_ascii (pstrip ((psplit ';' (pstrip raw)).getD 3 "")))
        (normalize_to_ascii (pstrip ((psplit ';' (pstrip raw)).getD 4 ""))) := by
  have key : ∀ bt vz : String, rowMemo bt vz = memoAmended bt vz := by
    intro bt vz
    unfold rowMemo memoAmended
    by_cases hv0 : vz = ""
    · by_cases hb0 : bt = "" <;> simp [hv0, hb0, pjoin]
    · by_cases hveq : vz = bt
      · subst hveq
        simp [hv0, pjoin]
      · by_cases hb0 : bt = "" <;> simp [hv0, hveq, hb0, pjoin]
  unfold processRow at h
  dsimp only at h
  split at h
  · exact absurd h (by simp)
  split at h
  · exact absurd h (by simp)
  split at h
  · exact absurd h (by simp)
  split at h
  · exact absurd h (by simp)
  split at h
  · exact absurd h (by simp)
  obtain rfl := Option.some.inj h
  exact key _ _

/-- Witness for claim C9 (amended) at a concrete parsed row. -/
theorem claim_C9_amended_witness :
    (⟨"01/01/2024", "P", "", "1.00", "Zweck"⟩ : Transaction).memo =
      memoAmended
        (normalize_to_ascii
          (pstrip ((psplit ';' (pstrip "01.01.2024;x;P;;Zweck;s;w;1,00")).getD 3 "")))
        (normalize_to_ascii
          (pstrip ((psplit ';' (pstrip "01.01.2024;x;P;;Zweck;s;w;1,00")).getD 4 ""))) :=
  claim_C9_amended "01.01.2024;x;P;;Zweck;s;w;1,00" _ rfl

/-! ## Lemmas for claim C2 -/

theorem digitChar_spec : ∀ d < 10, (digitChar d).toNat = 48 + d ∧
    pspace (digitChar d) = false ∧ allowedAmountChar (digitChar d) = true ∧
    (digitChar d).isDigit = true ∧ digitChar d ≠ '.' ∧ digitChar d ≠ ',' ∧
    digitChar d ≠ '-' ∧ digitChar d ≠ '+' := by decide

theorem dropWhile_eq_self_of_all {p : Char → Bool} {l : List Char}
    (h : ∀ c ∈ l, p c = false) : l.dropWhile p = l := by
  cases l with
  | nil => rfl
  | cons x xs =>
    exact List.dropWhile_cons_of_neg (by simp [h x (List.mem_cons_self x xs)])

theorem pstripL_eq_self_of_all {l : List Char} (h : ∀ c ∈ l, pspace c = false) :
    pstripL l = l := by
  unfold pstripL
  rw [dropWhile_eq_self_of_all h,
    dropWhile_eq_self_of_all (fun c hc => h c (List.mem_reverse.mp hc)),
    List.reverse_reverse]

theorem takeWhile_append_of_all {p : Char → Bool} {l r : List Char}
    (h : ∀ c ∈ l, p c = true) : (l ++ r).takeWhile p = l ++ r.takeWhile p := by
  induction l with
  | nil => simp
  | cons x xs ih =>
    rw [List.cons_append, List.takeWhile_cons_of_pos (h x (List.mem_cons_self x xs)),
      ih (fun c hc => h c (List.mem_cons_of_mem x hc)), List.cons_append]

theorem dropWhile_append_of_all {p : Char → Bool} {l r : List Char}
    (h : ∀ c ∈ l, p c = true) : (l ++ r).dropWhile p = r.dropWhile p := by
  induction l with
  | nil => simp
  | cons x xs ih =>
    rw [List.cons_append, List.dropWhile_cons_of_pos (h x (List.mem_cons_self x xs)),
      ih (fun c hc => h c (List.mem_cons_of_mem x hc))]

theorem cleanChars_append (l r : List Char) :
    cleanChars (l ++ r) = cleanChars l ++ cleanChars r := by
  unfold cleanChars
  rw [List.filter_append, List.filter_append, List.map_append]

theorem cleanChars_digits {ds : List Nat} (h : ∀ d ∈ ds, d < 10) :
    cleanChars (ds.map digitChar) = ds.map digitChar := by
  induction ds with
  | nil => rfl
  | cons d ds ih =>
    have hd := digitChar_spec d (h d (List.mem_cons_self d ds))
    have hrest := ih (fun x hx => h x (List.mem_cons_of_mem d hx))
    unfold cleanChars at hrest ⊢
    simp only [List.map_cons, List.filter_cons, hd.2.2.1, if_true]
    rw [if_pos (by simpa using hd.2.2.2.2.1)]
    simp only [List.map_cons, hrest]
    rw [if_neg (by simpa using hd.2.2.2.2.2.1)]

theorem cleanChars_dot_cons (l : List Char) : cleanChars ('.' :: l) = cleanChars l := by
  unfold cleanChars
  rw [List.filter_cons_of_pos (by decide), List.filter_cons_of_neg (by simp)]

theorem cleanChars_comma_cons (l : List Char) :
    cleanChars (',' :: l) = '.' :: cleanChars l := by
  unfold cleanChars
  rw [List.filter_cons_of_pos (by decide), List.filter_cons_of_pos (by decide),
    List.map_cons]
  simp

theorem cleanChars_groups {gs : List (List Nat)}
    (h : ∀ g ∈ gs, ∀ d ∈ g, d < 10) :
    cleanChars (gs.flatMap (fun g => '.' :: g.map digitChar)) =
      (gs.flatten).map digitChar := by
  induction gs with
  | nil => rfl
  | cons g gs ih =>
    rw [List.flatMap_cons, cleanChars_append, cleanChars_dot_cons,
      cleanChars_digits (h g (List.mem_cons_self g gs)),
      ih (fun x hx d hd => h x (List.mem_cons_of_mem g hx) d hd),
      List.flatten_cons, List.map_append]

theorem natOfDigits_foldl (ds : List Nat) (a : Nat) (h : ∀ d ∈ ds, d < 10) :
    (ds.map digitChar).foldl (fun x c => 10 * x + (c.toNat - 48)) a =
      ds.foldl (fun x d => 10 * x + d) a := by
  induction ds generalizing a with
  | nil => rfl
  | cons d ds ih =>
    have hd := (digitChar_spec d (h d (List.mem_cons_self d ds))).1
    simp only [List.map_cons, List.foldl_cons, hd]
    rw [show 48 + d - 48 = d by omega]
    exact ih _ (fun x hx => h x (List.mem_cons_of_mem d hx))

theorem natOfDigits_map {ds : List Nat} (h : ∀ d ∈ ds, d < 10) :
    natOfDigits (ds.map digitChar) = natOfDigitVals ds :=
  natOfDigits_foldl ds 0 h

theorem all_digit_or_dot {xs : List Nat} (h : ∀ d ∈ xs, d < 10) :
    (xs.map digitChar).all (fun c => c.isDigit || c = '.') = true := by
  rw [List.all_eq_true]
  intro c hc
  obtain ⟨d, hd, rfl⟩ := List.mem_map.mp hc
  simp [(digitChar_spec d (h d hd)).2.2.2.1]

theorem dot_not_mem_digits {xs : List Nat} (h : ∀ d ∈ xs, d < 10) :
    '.' ∉ xs.map digitChar := by
  intro hmem
  obtain ⟨d, hd, heq⟩ := List.mem_map.mp hmem
  exact (digitChar_spec d (h d hd)).2.2.2.2.1 heq

theorem data_mk (l : List Char) : (String.mk l).data = l := rfl

theorem signChars_cases (ga : GermanAmount) :
    ga.signChars = [] ∨ ga.signChars = ['+'] ∨ ga.signChars = ['-'] := by
  rcases ga.sign_ok with h | h | h
  · left
    unfold GermanAmount.signChars
    rw [h]
  · right
    left
    unfold GermanAmount.signChars
    rw [h]
  · right
    right
    unfold GermanAmount.signChars
    rw [h]

theorem cleanChars_sign (ga : GermanAmount) :
    cleanChars ga.signChars = ga.signChars := by
  rcases signChars_cases ga with h | h | h <;> rw [h] <;> rfl

theorem render_nospace (ga : GermanAmount) :
    ∀ c ∈ ga.render.data, pspace c = false := by
  intro c hc
  unfold GermanAmount.render at hc
  rw [data_mk] at hc
  simp only [List.mem_append, List.mem_cons, List.mem_map, List.mem_flatMap] at hc
  rcases hc with ((hsc | hg0) | hgs) | hcomma | hfrac
  · rcases signChars_cases ga with h | h | h <;> rw [h] at hsc <;> simp at hsc
    · rw [hsc]; decide
    · rw [hsc]; decide
  · obtain ⟨d, hd, rfl⟩ := hg0
    exact (digitChar_spec d (ga.g0_digits d hd)).2.1
  · obtain ⟨g, hg, hcg⟩ := hgs
    rcases hcg with rfl | ⟨d, hd, rfl⟩
    · decide
    · exact (digitChar_spec d ((ga.gs_ok g hg).2 d hd)).2.1
  · rw [hcomma]; decide
  · obtain ⟨d, hd, rfl⟩ := hfrac
    exact (digitChar_spec d (ga.frac_digits d hd)).2.1

theorem cleaned_render (ga : GermanAmount) :
    (cleanedAmount ga.render).data =
      ga.signChars ++ (ga.g0 ++ ga.gs.flatten).map digitChar ++
        '.' :: ga.frac.map digitChar := by
  unfold cleanedAmount
  rw [data_mk, pstripL_eq_self_of_all (render_nospace ga)]
  unfold GermanAmount.render
  rw [data_mk, cleanChars_append, cleanChars_append, cleanChars_append,
    cleanChars_sign ga, cleanChars_digits ga.g0_digits,
    cleanChars_groups (fun g hg d hd => (ga.gs_ok g hg).2 d hd),
    cleanChars_comma_cons, cleanChars_digits ga.frac_digits,
    List.map_append]
  simp [List.append_assoc]

theorem pyFloatCore_eval (sgn : Int) {ds fs : List Nat}
    (hds : ∀ d ∈ ds, d < 10) (hfs : ∀ d ∈ fs, d < 10) (hne : ds ≠ []) :
    pyFloatCore sgn (ds.map digitChar ++ '.' :: fs.map digitChar) =
      some ⟨sgn * ((natOfDigitVals ds * pow10 fs.length + natOfDigitVals fs : Nat) : Int),
        fs.length⟩ := by
  obtain ⟨d0, ds1, rfl⟩ : ∃ d0 ds1, ds = d0 :: ds1 := by
    cases ds with
    | nil => exact absurd rfl hne
    | cons a l => exact ⟨a, l, rfl⟩
  have hd0 := digitChar_spec d0 (hds d0 (List.mem_cons_self d0 ds1))
  have hdot_dec : ∀ c ∈ (d0 :: ds1).map digitChar,
      (fun c => decide ¬(c = '.')) c = true := by
    intro c hc
    obtain ⟨d, hd, rfl⟩ := List.mem_map.mp hc
    simpa using (digitChar_spec d (hds d hd)).2.2.2.2.1
  have hcond : ((d0 :: ds1).map digitChar ++ '.' :: fs.map digitChar) ≠ [] ∧
      ((d0 :: ds1).map digitChar ++ '.' :: fs.map digitChar).all
        (fun c => c.isDigit || c = '.') = true ∧
      ((d0 :: ds1).map digitChar ++ '.' :: fs.map digitChar).count '.' ≤ 1 ∧
      ((d0 :: ds1).map digitChar ++ '.' :: fs.map digitChar).any Char.isDigit = true := by
    refine ⟨by simp, ?_, ?_, ?_⟩
    · rw [List.all_append, all_digit_or_dot hds, List.all_cons, all_digit_or_dot hfs]
      simp
    · rw [List.count_append, List.count_cons_self,
        List.count_eq_zero.mpr (dot_not_mem_digits hds),
        List.count_eq_zero.mpr (dot_not_mem_digits hfs)]
    · simp only [List.map_cons, List.cons_append, List.any_cons, hd0.2.2.2.1,
        Bool.true_or]
  unfold pyFloatCore
  dsimp only
  rw [if_pos hcond, takeWhile_append_of_all hdot_dec,
    List.takeWhile_cons_of_neg (by simp), List.append_nil,
    dropWhile_append_of_all hdot_dec, List.dropWhile_cons_of_neg (by simp),
    List.drop_one, List.tail_cons, natOfDigits_map hds, natOfDigits_map hfs,
    List.length_map]

theorem pyFloat_render {sc : List Char} (hsc : sc = [] ∨ sc = ['+'] ∨ sc = ['-'])
    {ds fs : List Nat} (hds : ∀ d ∈ ds, d < 10) (hfs : ∀ d ∈ fs, d < 10)
    (hne : ds ≠ []) :
    pyFloat (sc ++ (ds.map digitChar ++ '.' :: fs.map digitChar)) =
      some ⟨(if sc = ['-'] then -1 else 1) *
        ((natOfDigitVals ds * pow10 fs.length + natOfDigitVals fs : Nat) : Int),
        fs.length⟩ := by
  obtain ⟨d0, ds1, rfl⟩ : ∃ d0 ds1, ds = d0 :: ds1 := by
    cases ds with
    | nil => exact absurd rfl hne
    | cons a l => exact ⟨a, l, rfl⟩
  have hd0 := digitChar_spec d0 (hds d0 (List.mem_cons_self d0 ds1))
  have hhead : ((d0 :: ds1).map digitChar ++ '.' :: fs.map digitChar).headD ' ' =
      digitChar d0 := by
    rw [List.map_cons, List.cons_append, List.headD_cons]
  rcases hsc with rfl | rfl | rfl
  · rw [List.nil_append]
    unfold pyFloat
    rw [hhead, if_neg hd0.2.2.2.2.2.2.1, if_neg hd0.2.2.2.2.2.2.2,
      pyFloatCore_eval 1 hds hfs hne]
    norm_num
  · rw [List.singleton_append]
    unfold pyFloat
    rw [List.headD_cons, if_neg (by decide), if_pos rfl, List.tail_cons,
      pyFloatCore_eval 1 hds hfs hne]
    norm_num
    rw [if_neg (by decide)]
  · rw [List.singleton_append]
    unfold pyFloat
    rw [List.headD_cons, if_pos rfl, List.tail_cons,
      pyFloatCore_eval (-1) hds hfs hne]
    norm_num

/-- Claim C2: every amount string matching
`[-+]?\d{1,3}(\.\d{3})*,\d{2}` parses to the mathematically equivalent
decimal value; in particular `"-1.770,00"` parses to `-1770.00` and
`"250,00"` parses to `250.00`. -/
theorem claim_C2 (ga : GermanAmount) :
    (parse_german_amount_to_float ga.render).map PyDec.value = .ok ga.mathValue ∧
    parse_german_amount_to_float "-1.770,00" = .ok ⟨-177000, 2⟩ ∧
    PyDec.value ⟨-177000, 2⟩ = -1770 ∧
    parse_german_amount_to_float "250,00" = .ok ⟨25000, 2⟩ ∧
    PyDec.value ⟨25000, 2⟩ = 250 := by
  refine ⟨?_, rfl, by norm_num [PyDec.value, pow10], rfl, by norm_num [PyDec.value, pow10]⟩
  have hds : ∀ d ∈ ga.g0 ++ ga.gs.flatten, d < 10 := by
    intro d hd
    rcases List.mem_append.mp hd with h | h
    · exact ga.g0_digits d h
    · obtain ⟨g, hg, hdg⟩ := List.mem_flatten.mp h
      exact (ga.gs_ok g hg).2 d hdg
  have hne : ga.g0 ++ ga.gs.flatten ≠ [] := by
    intro h
    have hlow := ga.g0_low
    rw [(List.append_eq_nil.mp h).1] at hlow
    simp at hlow
  have hclean := cleaned_render ga
  have hno : ¬(cleanedAmount ga.render = "" ∨ cleanedAmount ga.render = "+" ∨
      cleanedAmount ga.render = "-") := by
    have h4 : 2 ≤ (cleanedAmount ga.render).data.length := by
      rw [hclean]
      simp only [List.length_append, List.length_cons, List.length_map, ga.frac_len]
      omega
    intro hcontra
    rcases hcontra with h | h | h <;> rw [h] at h4 <;> simp at h4
  unfold parse_german_amount_to_float
  dsimp only
  rw [if_neg hno, hclean, List.append_assoc,
    pyFloat_render (signChars_cases ga) hds ga.frac_digits hne, ga.frac_len]
  simp only [Except.map]
  congr 1
  unfold PyDec.value GermanAmount.mathValue
  dsimp only
  rcases ga.sign_ok with h | h | h
  · have hs : ga.signChars = [] := by
      unfold GermanAmount.signChars
      rw [h]
    rw [hs, if_neg (by decide), h, if_neg (by simp)]
    push_cast
    norm_num [pow10]
    field_simp
  · have hs : ga.signChars = ['+'] := by
      unfold GermanAmount.signChars
      rw [h]
    rw [hs, if_neg (by decide), h, if_neg (by simp)]
    push_cast
    norm_num [pow10]
    field_simp
  · have hs : ga.signChars = ['-'] := by
      unfold GermanAmount.signChars
      rw [h]
    rw [hs, if_pos rfl, h, if_pos rfl]
    push_cast
    norm_num [pow10]
    field_simp

/-- Witness for claim C2 at the concrete match `-1.770,00` of the
pattern. -/
theorem claim_C2_witness :
    (parse_german_amount_to_float (GermanAmount.render
        ⟨some '-', [1], [[7, 7, 0]], [0, 0], Or.inr (Or.inr rfl), by decide, by decide,
          by decide, by decide, by decide, by decide⟩)).map PyDec.value =
      .ok (GermanAmount.mathValue
        ⟨some '-', [1], [[7, 7, 0]], [0, 0], Or.inr (Or.inr rfl), by decide, by decide,
          by decide, by decide, by decide, by decide⟩) :=
  (claim_C2 _).1

/-! ## Lemmas for claim C4 -/

theorem umlautRepl_of_ascii {c : Char} (h : c.toNat < 128) : umlautRepl c = [c] := by
  unfold umlautRepl
  rw [if_neg (fun hc => absurd (hc ▸ h) (by decide)),
    if_neg (fun hc => absurd (hc ▸ h) (by decide)),
    if_neg (fun hc => absurd (hc ▸ h) (by decide)),
    if_neg (fun hc => absurd (hc ▸ h) (by decide)),
    if_neg (fun hc => absurd (hc ▸ h) (by decide)),
    if_neg (fun hc => absurd (hc ▸ h) (by decide)),
    if_neg (fun hc => absurd (hc ▸ h) (by decide))]

theorem nfkdAscii_of_ascii {c : Char} (h : c.toNat < 128) : nfkdAscii c = [c] := by
  unfold nfkdAscii
  rw [if_pos h]

theorem lookup_mem : ∀ {l : List (Char × List Char)} {c : Char} {v : List Char},
    l.lookup c = some v → (c, v) ∈ l := by
  intro l
  induction l with
  | nil => intro c v h; exact absurd h (by simp [List.lookup])
  | cons p t ih =>
    intro c v h
    rw [List.lookup] at h
    split at h
    · obtain rfl := Option.some.inj h
      have : c = p.1 := by
        have hb : (c == p.1) = true := by assumption
        exact eq_of_beq hb
      subst this
      exact List.mem_cons_self _ _
    · exact List.mem_cons_of_mem p (ih h)

theorem nfkdAscii_out_ascii : ∀ c : Char, ∀ x ∈ nfkdAscii c, x.toNat < 128 := by
  intro c x hx
  unfold nfkdAscii at hx
  split at hx
  · rw [List.mem_singleton] at hx
    subst hx
    assumption
  · cases hl : nfkdTable.lookup c with
    | none => rw [hl] at hx; exact absurd hx (by simp)
    | some v =>
      rw [hl] at hx
      have hmem := lookup_mem hl
      have htab : ∀ p ∈ nfkdTable, ∀ x ∈ p.2, x.toNat < 128 := by decide
      exact htab (c, v) hmem x hx

theorem flatMap_umlaut_ascii {l : List Char} (h : ∀ c ∈ l, c.toNat < 128) :
    l.flatMap umlautRepl = l := by
  induction l with
  | nil => rfl
  | cons c t ih =>
    rw [List.flatMap_cons, umlautRepl_of_ascii (h c (List.mem_cons_self c t)),
      ih (fun x hx => h x (List.mem_cons_of_mem c hx)), List.singleton_append]

theorem flatMap_nfkd_ascii {l : List Char} (h : ∀ c ∈ l, c.toNat < 128) :
    l.flatMap nfkdAscii = l := by
  induction l with
  | nil => rfl
  | cons c t ih =>
    rw [List.flatMap_cons, nfkdAscii_of_ascii (h c (List.mem_cons_self c t)),
      ih (fun x hx => h x (List.mem_cons_of_mem c hx)), List.singleton_append]

theorem flatMap_nfkd_out {l : List Char} : ∀ x ∈ l.flatMap nfkdAscii, x.toNat < 128 := by
  intro x hx
  obtain ⟨c, _, hxc⟩ := List.mem_flatMap.mp hx
  exact nfkdAscii_out_ascii c x hxc

theorem pwordsAux_good : ∀ (cs acc : List Char), (∀ c ∈ acc, pspace c = false) →
    ∀ w ∈ pwordsAux cs acc, w ≠ [] ∧ ∀ c ∈ w, pspace c = false := by
  intro cs
  induction cs with
  | nil =>
    intro acc hacc w hw
    unfold pwordsAux at hw
    split at hw
    · exact absurd hw (by simp)
    · rename_i hne
      rw [List.mem_singleton] at hw
      subst hw
      refine ⟨fun hrev => hne (List.reverse_eq_nil_iff.mp hrev), ?_⟩
      intro c hc
      exact hacc c (List.mem_reverse.mp hc)
  | cons a cs ih =>
    intro acc hacc w hw
    unfold pwordsAux at hw
    split at hw
    · split at hw
      · exact ih [] (by simp) w hw
      · rename_i hne
        rcases List.mem_cons.mp hw with rfl | hw2
        · refine ⟨fun hrev => hne (List.reverse_eq_nil_iff.mp hrev), ?_⟩
          intro c hc
          exact hacc c (List.mem_reverse.mp hc)
        · exact ih [] (by simp) w hw2
    · rename_i hna
      refine ih (a :: acc) ?_ w hw
      intro x hx
      rcases List.mem_cons.mp hx with rfl | hx2
      · simpa using hna
      · exact hacc x hx2

theorem pwordsAux_subset : ∀ (cs acc : List Char), ∀ w ∈ pwordsAux cs acc,
    ∀ c ∈ w, c ∈ cs ∨ c ∈ acc := by
  intro cs
  induction cs with
  | nil =>
    intro acc w hw c hc
    unfold pwordsAux at hw
    split at hw
    · exact absurd hw (by simp)
    · rw [List.mem_singleton] at hw
      subst hw
      exact Or.inr (List.mem_reverse.mp hc)
  | cons a cs ih =>
    intro acc w hw c hc
    unfold pwordsAux at hw
    split at hw
    · split at hw
      · rcases ih [] w hw c hc with h | h
        · exact Or.inl (List.mem_cons_of_mem a h)
        · exact absurd h (by simp)
      · rcases List.mem_cons.mp hw with rfl | hw2
        · exact Or.inr (List.mem_reverse.mp hc)
        · rcases ih [] w hw2 c hc with h | h
          · exact Or.inl (List.mem_cons_of_mem a h)
          · exact absurd h (by simp)
    · rcases ih (a :: acc) w hw c hc with h | h
      · exact Or.inl (List.mem_cons_of_mem a h)
      · rcases List.mem_cons.mp h with rfl | h2
        · exact Or.inl (List.mem_cons_self _ _)
        · exact Or.inr h2

theorem pwordsAux_skipword : ∀ (w l acc : List Char), (∀ c ∈ w, pspace c = false) →
    pwordsAux (w ++ l) acc = pwordsAux l (w.reverse ++ acc) := by
  intro w
  induction w with
  | nil => intro l acc h; rfl
  | cons c w ih =>
    intro l acc h
    rw [List.cons_append]
    have hc := h c (List.mem_cons_self c w)
    simp only [pwordsAux, hc, Bool.false_eq_true, if_false]
    rw [ih l (c :: acc) (fun x hx => h x (List.mem_cons_of_mem c hx))]
    simp [List.reverse_cons, List.append_assoc]

theorem pwords_roundtrip : ∀ ws : List (List Char),
    (∀ w ∈ ws, w ≠ [] ∧ ∀ c ∈ w, pspace c = false) →
    pwords (pintercalate [' '] ws) = ws := by
  intro ws
  induction ws with
  | nil => intro h; rfl
  | cons w ws ih =>
    intro h
    have hw := h w (List.mem_cons_self w ws)
    cases ws with
    | nil =>
      show pwords w = [w]
      unfold pwords
      rw [show w = w ++ [] from (List.append_nil w).symm, pwordsAux_skipword w [] [] hw.2]
      unfold pwordsAux
      rw [List.append_nil, List.append_nil,
        if_neg (fun hrev => hw.1 (List.reverse_eq_nil_iff.mp hrev)),
        List.reverse_reverse]
    | cons w2 ws2 =>
      show pwords ((w ++ [' ']) ++ pintercalate [' '] (w2 :: ws2)) = w :: w2 :: ws2
      unfold pwords
      rw [List.append_assoc, pwordsAux_skipword w _ [] hw.2, List.append_nil,
        List.singleton_append]
      simp only [pwordsAux, show pspace ' ' = true from rfl, if_true]
      rw [if_neg (fun hrev => hw.1 (List.reverse_eq_nil_iff.mp hrev)),
        List.reverse_reverse]
      exact congrArg (w :: ·) (ih (fun x hx => h x (List.mem_cons_of_mem w hx)))

theorem collapseWS_idem (cs : List Char) : collapseWS (collapseWS cs) = collapseWS cs := by
  unfold collapseWS
  rw [pwords_roundtrip (pwords cs) (pwordsAux_good cs [] (by simp))]

theorem mem_pintercalate : ∀ (ws : List (List Char)) (c : Char),
    c ∈ pintercalate [' '] ws → (∃ w ∈ ws, c ∈ w) ∨ c = ' ' := by
  intro ws
  induction ws with
  | nil =>
    intro c hc
    exact absurd hc (by simp [pintercalate])
  | cons w ws ih =>
    intro c hc
    cases ws with
    | nil => exact Or.inl ⟨w, List.mem_cons_self w [], hc⟩
    | cons w2 ws2 =>
      rw [show pintercalate [' '] (w :: w2 :: ws2) =
        (w ++ [' ']) ++ pintercalate [' '] (w2 :: ws2) from rfl] at hc
      rcases List.mem_append.mp hc with hc1 | hc2
      · rcases List.mem_append.mp hc1 with hc3 | hc4
        · exact Or.inl ⟨w, List.mem_cons_self w _, hc3⟩
        · right
          simpa using hc4
      · rcases ih c hc2 with ⟨w3, hw3, hcw⟩ | hsp
        · exact Or.inl ⟨w3, List.mem_cons_of_mem w hw3, hcw⟩
        · exact Or.inr hsp

theorem collapseWS_mem {cs : List Char} : ∀ c ∈ collapseWS cs, c ∈ cs ∨ c = ' ' := by
  intro c hc
  unfold collapseWS at hc
  rcases mem_pintercalate (pwords cs) c hc with ⟨w, hw, hcw⟩ | hsp
  · rcases pwordsAux_subset cs [] w hw c hcw with h | h
    · exact Or.inl h
    · exact absurd h (by simp)
  · exact Or.inr hsp

theorem normalize_output_ascii (s : String) :
    ∀ c ∈ (normalize_to_ascii s).data, c.toNat < 128 := by
  intro c hc
  unfold normalize_to_ascii at hc
  split at hc
  · exact absurd hc (by simp)
  · rw [data_mk] at hc
    rcases collapseWS_mem c hc with h | rfl
    · exact flatMap_nfkd_out c h
    · decide

theorem normalize_to_ascii_idem (s : String) :
    normalize_to_ascii (normalize_to_ascii s) = normalize_to_ascii s := by
  by_cases h0 : s = ""
  · rw [h0]
    rfl
  · obtain ⟨r, hr⟩ : ∃ r, normalize_to_ascii s = r := ⟨_, rfl⟩
    have hascii : ∀ c ∈ r.data, c.toNat < 128 := hr ▸ normalize_output_ascii s
    have hdata : r.data = collapseWS ((s.data.flatMap umlautRepl).flatMap nfkdAscii) := by
      rw [← hr]
      unfold normalize_to_ascii
      rw [if_neg h0, data_mk]
    rw [hr]
    by_cases hr0 : r = ""
    · rw [hr0]
      rfl
    · unfold normalize_to_ascii
      rw [if_neg hr0, flatMap_umlaut_ascii hascii, flatMap_nfkd_ascii hascii,
        hdata, collapseWS_idem, ← hdata]

theorem normalize_ascii_eq_collapse (s : String) (h : ∀ c ∈ s.data, c.toNat < 128) :
    normalize_to_ascii s = ⟨collapseWS s.data⟩ := by
  by_cases h0 : s = ""
  · subst h0
    rfl
  · unfold normalize_to_ascii
    rw [if_neg h0, flatMap_umlaut_ascii h, flatMap_nfkd_ascii h]

/-- Claim C4 as amended: `normalize_to_ascii` is idempotent, maps `"Müller"`
to `"Mueller"`, `"Straße"` to `"Strasse"` and the empty string to itself;
but on an already-ASCII string it returns the string with whitespace runs
collapsed to single spaces and ends trimmed (the identity only on ASCII
strings already in that form), not always the string unchanged. -/
theorem claim_C4_amended (s : String) :
    normalize_to_ascii (normalize_to_ascii s) = normalize_to_ascii s ∧
    ((∀ c ∈ s.data, c.toNat < 128) → normalize_to_ascii s = ⟨collapseWS s.data⟩) ∧
    normalize_to_ascii "Müller" = "Mueller" ∧
    normalize_to_ascii "Straße" = "Strasse" ∧
    normalize_to_ascii "" = "" :=
  ⟨normalize_to_ascii_idem s, normalize_ascii_eq_collapse s, by decide, by decide, rfl⟩

/-- Witness for claim C4 (amended): idempotence and the collapse rule at a
concrete ASCII string with a double space. -/
theorem claim_C4_amended_witness :
    normalize_to_ascii (normalize_to_ascii "x  y") = normalize_to_ascii "x  y" ∧
    normalize_to_ascii "x  y" = ⟨collapseWS ("x  y" : String).data⟩ :=
  ⟨(claim_C4_amended "x  y").1, (claim_C4_amended "x  y").2.1 (by decide)⟩
